import Mathlib

/-!
Verification of the kuberirust voxel core
(src/kuberirust/src/model.rs and src/kuberirust/src/mouse_picker.rs).

Modelling conventions:
* `f32`/`f64` values are modelled as `ℚ`; the `std::f32::MAX` sentinel is the
  exact rational value of `f32::MAX`, namely `2^128 - 2^104`.
* Rust's saturating float-to-`i32` cast (`as i32`, rounding toward zero) is
  `as_i32`; `.floor() as i32` is `floor_as_i32`.
* `HashMap` fields are modelled as association lists (`List (key × value)`)
  queried with `List.lookup`, insertion order following the source's loops.
* The thread-local RNG consumed by `rng.gen_range(0, 10)` is modelled as an
  explicit stream `samples : ℕ → ℕ` giving the value of the i-th draw.
* Machine-integer voxel coordinates are modelled as unbounded `ℤ`.
-/

namespace Kuberirust

/-- `enum BlockType` from model.rs. -/
inductive BlockType
  | GRASS
  | DIRT
  | STONE
deriving DecidableEq, Repr

/-- `enum QuadType` from model.rs (texture-atlas face categories). -/
inductive QuadType
  | GRASS_TOP
  | GRASS_SIDE
  | DIRT
  | STONE
deriving DecidableEq, Repr

/-- `enum UV` from model.rs (corner role along one texture axis). -/
inductive UV
  | MIN
  | MAX
deriving DecidableEq, Repr

/-- `struct Block` from model.rs. -/
structure Block where
  blocktype : BlockType
deriving DecidableEq, Repr

/-- Integer 3-vector (voxel / chunk / local coordinates). -/
abbrev Coord3 := ℤ × ℤ × ℤ

/-- `struct Chunk` from model.rs: `blocks: HashMap<[u8;3], Block>`,
modelled as an association list. -/
structure Chunk where
  blocks : List (Coord3 × Block)
deriving DecidableEq, Repr

/-- `struct World` from model.rs: `chunks: HashMap<_, Chunk>`,
modelled as an association list keyed by chunk coordinates. -/
structure World where
  chunks : List (Coord3 × Chunk)
deriving DecidableEq, Repr

/-- `const CHUNKSIZE: u8 = 16` from model.rs. -/
def CHUNKSIZE : ℤ := 16

/-- Modelled from the spec: the chunk coordinate of a global block coordinate,
by floored division by `CHUNK_SIZE`.  The function that performs this in the
repository (`World::GetBlockFromGlobalAddress`, called at mouse_picker.rs:92)
is not present under src/; the spec requires floored division. -/
def chunkOfGlobal (g : Coord3) : Coord3 :=
  (Int.fdiv g.1 CHUNKSIZE, Int.fdiv g.2.1 CHUNKSIZE, Int.fdiv g.2.2 CHUNKSIZE)

/-- Modelled from the spec: the in-chunk local coordinate of a global block
coordinate, by floored (always non-negative) modulo by `CHUNK_SIZE`. -/
def localOfGlobal (g : Coord3) : Coord3 :=
  (Int.fmod g.1 CHUNKSIZE, Int.fmod g.2.1 CHUNKSIZE, Int.fmod g.2.2 CHUNKSIZE)

/-- Modelled from the spec: `World::GetBlockFromGlobalAddress` (the world
lookup called at mouse_picker.rs:92 but absent from src/).  Splits the global
coordinate into (chunk, local) with floored arithmetic, then queries the two
sparse maps; a missing chunk or missing local entry both yield `none`.  The
caller passes `i32` values through `f64`, which is exact, so the argument is
modelled as `ℤ`. -/
def World.GetBlockFromGlobalAddress (w : World) (g : Coord3) : Option BlockType :=
  match w.chunks.lookup (chunkOfGlobal g) with
  | some ch => (ch.blocks.lookup (localOfGlobal g)).map Block.blocktype
  | none => none

/-- `std::f32::MAX` as an exact rational: `(2 - 2⁻²³)·2¹²⁷`. -/
def f32MAX : ℚ := 2 ^ 128 - 2 ^ 104

/-- Lower bound of `i32`. -/
def I32MIN : ℤ := -(2 ^ 31)

/-- Upper bound of `i32`. -/
def I32MAX : ℤ := 2 ^ 31 - 1

/-- Saturation of an integer into the `i32` range, as Rust float-to-int
casts do. -/
def i32clamp (n : ℤ) : ℤ := max I32MIN (min I32MAX n)

/-- Truncation toward zero, the rounding used by Rust's float-to-int casts. -/
def ratTrunc (q : ℚ) : ℤ := if 0 ≤ q then ⌊q⌋ else ⌈q⌉

/-- Rust `x.floor() as i32` on an `f32` value. -/
def floor_as_i32 (q : ℚ) : ℤ := i32clamp ⌊q⌋

/-- Rust `x as i32` on an `f32` value (truncating, saturating). -/
def as_i32 (q : ℚ) : ℤ := i32clamp (ratTrunc q)

/-- mouse_picker.rs:42 - the initial `current_block` of the traversal:
`(camera.position.x.floor() as i32, camera.position.y.floor() as i32,
camera.position.z as i32)`.  Note the z component is cast without `.floor()`. -/
def current_block_init (camX camY camZ : ℚ) : Coord3 :=
  (floor_as_i32 camX, floor_as_i32 camY, as_i32 camZ)

/-- mouse_picker.rs:43 - `ray_start` is a clone of the initial
`current_block`. -/
def ray_start (camX camY camZ : ℚ) : Coord3 :=
  current_block_init camX camY camZ

/-- C1: the world lookup resolves a global coordinate through floored
division and floored (non-negative) modulo by `CHUNK_SIZE = 16`: the
decomposition reconstructs the global coordinate with local components in
`[0, 16)`; the global coordinate `(-1,-1,-1)` resolves to chunk `(-1,-1,-1)`
and local `(15,15,15)`; and a block stored at chunk `C`, local `L` is found by
`GetBlockFromGlobalAddress` at the global coordinate `16·C + L`, so every
negative global coordinate resolves to its correct chunk. -/
theorem world_lookup_uses_floored_div_mod :
    (∀ g : Coord3,
      (CHUNKSIZE * (chunkOfGlobal g).1 + (localOfGlobal g).1 = g.1
        ∧ CHUNKSIZE * (chunkOfGlobal g).2.1 + (localOfGlobal g).2.1 = g.2.1
        ∧ CHUNKSIZE * (chunkOfGlobal g).2.2 + (localOfGlobal g).2.2 = g.2.2)
      ∧ (0 ≤ (localOfGlobal g).1 ∧ (localOfGlobal g).1 < 16)
      ∧ (0 ≤ (localOfGlobal g).2.1 ∧ (localOfGlobal g).2.1 < 16)
      ∧ (0 ≤ (localOfGlobal g).2.2 ∧ (localOfGlobal g).2.2 < 16))
    ∧ chunkOfGlobal (-1, -1, -1) = (-1, -1, -1)
    ∧ localOfGlobal (-1, -1, -1) = (15, 15, 15)
    ∧ ∀ (C L : Coord3) (ch : Chunk),
        0 ≤ L.1 → L.1 < 16 → 0 ≤ L.2.1 → L.2.1 < 16 → 0 ≤ L.2.2 → L.2.2 < 16 →
        (World.mk [(C, ch)]).GetBlockFromGlobalAddress
            (16 * C.1 + L.1, 16 * C.2.1 + L.2.1, 16 * C.2.2 + L.2.2)
          = (ch.blocks.lookup L).map Block.blocktype := by
  have hident : ∀ a : ℤ, 16 * Int.fdiv a 16 + Int.fmod a 16 = a := by
    intro a
    have := Int.fmod_add_fdiv a 16
    linarith
  have hlo : ∀ a : ℤ, 0 ≤ Int.fmod a 16 := by
    intro a
    rw [Int.fmod_eq_emod a (by norm_num)]
    exact Int.emod_nonneg a (by norm_num)
  have hhi : ∀ a : ℤ, Int.fmod a 16 < 16 := by
    intro a
    rw [Int.fmod_eq_emod a (by norm_num)]
    exact Int.emod_lt_of_pos a (by norm_num)
  refine ⟨?_, ?_, ?_, ?_⟩
  · intro g
    exact ⟨⟨hident g.1, hident g.2.1, hident g.2.2⟩,
      ⟨hlo g.1, hhi g.1⟩, ⟨hlo g.2.1, hhi g.2.1⟩, ⟨hlo g.2.2, hhi g.2.2⟩⟩
  · decide
  · decide
  · intro C L ch h1 h2 h3 h4 h5 h6
    have hc : chunkOfGlobal (16 * C.1 + L.1, 16 * C.2.1 + L.2.1, 16 * C.2.2 + L.2.2) = C := by
      have e1 := hident (16 * C.1 + L.1)
      have e2 := hident (16 * C.2.1 + L.2.1)
      have e3 := hident (16 * C.2.2 + L.2.2)
      have b1 := hlo (16 * C.1 + L.1); have b1' := hhi (16 * C.1 + L.1)
      have b2 := hlo (16 * C.2.1 + L.2.1); have b2' := hhi (16 * C.2.1 + L.2.1)
      have b3 := hlo (16 * C.2.2 + L.2.2); have b3' := hhi (16 * C.2.2 + L.2.2)
      have : Int.fdiv (16 * C.1 + L.1) 16 = C.1 := by omega
      have : Int.fdiv (16 * C.2.1 + L.2.1) 16 = C.2.1 := by omega
      have : Int.fdiv (16 * C.2.2 + L.2.2) 16 = C.2.2 := by omega
      simp only [chunkOfGlobal, CHUNKSIZE]
      refine Prod.ext ?_ (Prod.ext ?_ ?_) <;> simp <;> omega
    have hl : localOfGlobal (16 * C.1 + L.1, 16 * C.2.1 + L.2.1, 16 * C.2.2 + L.2.2) = L := by
      have e1 := hident (16 * C.1 + L.1)
      have e2 := hident (16 * C.2.1 + L.2.1)
      have e3 := hident (16 * C.2.2 + L.2.2)
      have b1 := hlo (16 * C.1 + L.1); have b1' := hhi (16 * C.1 + L.1)
      have b2 := hlo (16 * C.2.1 + L.2.1); have b2' := hhi (16 * C.2.1 + L.2.1)
      have b3 := hlo (16 * C.2.2 + L.2.2); have b3' := hhi (16 * C.2.2 + L.2.2)
      simp only [localOfGlobal, CHUNKSIZE]
      refine Prod.ext ?_ (Prod.ext ?_ ?_) <;> simp <;> omega
    simp only [World.GetBlockFromGlobalAddress, hc, hl, List.lookup]
    simp

/-- Witness for C1: a stone block stored in the chunk at `(-1,-1,-1)` at local
coordinate `(15,15,15)` is found by looking up the global coordinate
`(-1,-1,-1)`. -/
theorem world_lookup_uses_floored_div_mod_witness :
    (World.mk [((-1, -1, -1), Chunk.mk [(((15 : ℤ), (15 : ℤ), (15 : ℤ)), Block.mk BlockType.STONE)])]).GetBlockFromGlobalAddress
        (-1, -1, -1) = some BlockType.STONE := by
  have h := world_lookup_uses_floored_div_mod.2.2.2
    ((-1, -1, -1) : Coord3) ((15, 15, 15) : Coord3)
    (Chunk.mk [(((15 : ℤ), (15 : ℤ), (15 : ℤ)), Block.mk BlockType.STONE)])
    (by norm_num) (by norm_num) (by norm_num) (by norm_num) (by norm_num) (by norm_num)
  have harg : ((16 * (-1 : ℤ) + 15, 16 * (-1 : ℤ) + 15, 16 * (-1 : ℤ) + 15) : Coord3)
      = ((-1, -1, -1) : Coord3) := by decide
  rw [harg] at h
  rw [h]
  decide

/-- C2 (code bug): the z component of the traversal's starting voxel is
computed with a bare truncating `as i32` cast (mouse_picker.rs:42), not
`.floor() as i32` as the x and y components are.  At camera position
`(1/2, 1/2, -1/2)` the code yields starting voxel `(0,0,0)` although the
component-wise floor is `(0,0,-1)`. -/
theorem ray_origin_z_not_floored :
    current_block_init (1 / 2) (1 / 2) (-1 / 2) = (0, 0, 0)
    ∧ (⌊(-1 / 2 : ℚ)⌋, ⌊(1 / 2 : ℚ)⌋) = (-1, 0)
    ∧ ((0 : ℤ), (0 : ℤ), (0 : ℤ)) ≠ ((0 : ℤ), (0 : ℤ), (-1 : ℤ)) := by
  have hfl : (⌊(1 / 2 : ℚ)⌋ : ℤ) = 0 := by norm_num
  have hneg : (⌊(-1 / 2 : ℚ)⌋ : ℤ) = -1 := by norm_num
  have hceil : (⌈(-1 / 2 : ℚ)⌉ : ℤ) = 0 := by norm_num
  refine ⟨?_, by rw [hneg, hfl], by decide⟩
  have htr : ratTrunc (-1 / 2) = 0 := by
    rw [ratTrunc, if_neg (by norm_num)]
    exact hceil
  simp only [current_block_init, floor_as_i32, as_i32, htr, hfl, i32clamp, I32MIN, I32MAX]
  norm_num

/-- The i-th call to `rng.gen_range(0, 10)` in `build_random_chunk`'s triple
loop (`k` outermost, `m` innermost) is draw number `k·256 + l·16 + m`. -/
def sampleIndex (k l m : ℕ) : ℕ := k * 256 + l * 16 + m

/-- The `(k, l, m)` iteration order of `build_random_chunk`'s triple loop
(model.rs:188-190), each component ranging over `0..CHUNKSIZE`. -/
def chunkIterCoords : List (ℕ × ℕ × ℕ) :=
  (List.range 16).flatMap fun k =>
    (List.range 16).flatMap fun l =>
      (List.range 16).map fun m => (k, l, m)

/-- `Model::build_random_chunk` (model.rs:183-201), with the thread-local
RNG's draws supplied as the explicit stream `samples`: for each of the 16³
local coordinates one value is drawn; if it is `< 8` a `GRASS` block is
inserted at that coordinate, otherwise nothing is inserted. -/
def build_random_chunk (samples : ℕ → ℕ) : Chunk :=
  Chunk.mk <| chunkIterCoords.filterMap fun klm =>
    if samples (sampleIndex klm.1 klm.2.1 klm.2.2) < 8 then
      some (((klm.1 : ℤ), (klm.2.1 : ℤ), (klm.2.2 : ℤ)), Block.mk BlockType.GRASS)
    else none

/-- The chunk generator as claim C3 words it (grass threshold, else-branch
stone threshold, else air), at the spec's example thresholds; written from the
spec's words for comparison with `build_random_chunk`. -/
def build_chunk_per_claim (grassT stoneT : ℕ) (samples : ℕ → ℕ) : Chunk :=
  Chunk.mk <| chunkIterCoords.filterMap fun klm =>
    let v := samples (sampleIndex klm.1 klm.2.1 klm.2.2)
    if v < grassT then
      some (((klm.1 : ℤ), (klm.2.1 : ℤ), (klm.2.2 : ℤ)), Block.mk BlockType.GRASS)
    else if v < stoneT then
      some (((klm.1 : ℤ), (klm.2.1 : ℤ), (klm.2.2 : ℤ)), Block.mk BlockType.STONE)
    else none

theorem chunkIterCoords_nodup : chunkIterCoords.Nodup := by
  unfold chunkIterCoords
  rw [List.nodup_flatMap]
  refine ⟨?_, ?_⟩
  · intro k _
    rw [List.nodup_flatMap]
    refine ⟨?_, ?_⟩
    · intro l _
      exact (List.nodup_range 16).map fun a b h => by
        simpa using congrArg (fun p => p.2.2) h
    · refine List.Pairwise.imp ?_ (List.pairwise_lt_range 16)
      intro a b hab x hxa hxb
      simp only [List.mem_map] at hxa hxb
      obtain ⟨ma, _, rfl⟩ := hxa
      obtain ⟨mb, _, hx⟩ := hxb
      have : b = a := by simpa using congrArg (fun p => p.2.1) hx
      omega
  · refine List.Pairwise.imp ?_ (List.pairwise_lt_range 16)
    intro a b hab x hxa hxb
    simp only [List.mem_flatMap, List.mem_map] at hxa hxb
    obtain ⟨la, _, ma, _, rfl⟩ := hxa
    obtain ⟨lb, _, mb, _, hx⟩ := hxb
    have : b = a := by simpa using congrArg (fun p => p.1) hx
    omega

/-- Counterexample to C3 as stated: with every RNG draw equal to 3 and the
spec's example thresholds (grass 3, stone 4), the claimed generator stores a
STONE block at local coordinate `(0,0,0)`, but `build_random_chunk` stores a
GRASS block there (its only branch is `val < 8 → GRASS`; no stone branch
exists in model.rs:191-196). -/
theorem build_random_chunk_counterexample :
    (build_random_chunk fun _ => 3).blocks.lookup ((0 : ℤ), (0 : ℤ), (0 : ℤ))
        = some (Block.mk BlockType.GRASS)
    ∧ (build_chunk_per_claim 3 4 fun _ => 3).blocks.lookup ((0 : ℤ), (0 : ℤ), (0 : ℤ))
        = some (Block.mk BlockType.STONE)
    ∧ Block.mk BlockType.GRASS ≠ Block.mk BlockType.STONE := by
  exact ⟨rfl, rfl, by decide⟩

/-- C3 as amended: `build_random_chunk` visits each of the 16³ local
coordinates exactly once (the coordinate keys are duplicate-free), draws the
single sample numbered `sampleIndex k l m` for coordinate `(k,l,m)`, inserts a
GRASS block there exactly when that sample is below 8, and never inserts any
other block type. -/
theorem build_random_chunk_amended (samples : ℕ → ℕ) :
    ((build_random_chunk samples).blocks.map Prod.fst).Nodup
    ∧ (∀ p ∈ (build_random_chunk samples).blocks, p.2 = Block.mk BlockType.GRASS)
    ∧ ∀ k l m : ℕ, k < 16 → l < 16 → m < 16 →
        (((((k : ℤ), (l : ℤ), (m : ℤ)) : Coord3), Block.mk BlockType.GRASS)
            ∈ (build_random_chunk samples).blocks
          ↔ samples (sampleIndex k l m) < 8) := by
  refine ⟨?_, ?_, ?_⟩
  · rw [build_random_chunk, List.map_filterMap]
    refine List.Nodup.filterMap ?_ chunkIterCoords_nodup
    intro a a' b hb hb'
    simp only [Option.mem_def, Option.map_eq_some'] at hb hb'
    obtain ⟨pa, hpa, rfl⟩ := hb
    obtain ⟨pa', hpa', hfst⟩ := hb'
    split_ifs at hpa hpa' with h1 h2
    · cases hpa; cases hpa'
      have h1 : (a.1 : ℤ) = (a'.1 : ℤ) := by simpa using (congrArg (fun p => p.1) hfst).symm
      have h2 : (a.2.1 : ℤ) = (a'.2.1 : ℤ) := by simpa using (congrArg (fun p => p.2.1) hfst).symm
      have h3 : (a.2.2 : ℤ) = (a'.2.2 : ℤ) := by simpa using (congrArg (fun p => p.2.2) hfst).symm
      have e1 : a.1 = a'.1 := by exact_mod_cast h1
      have e2 : a.2.1 = a'.2.1 := by exact_mod_cast h2
      have e3 : a.2.2 = a'.2.2 := by exact_mod_cast h3
      exact Prod.ext e1 (Prod.ext e2 e3)
  · intro p hp
    simp only [build_random_chunk, List.mem_filterMap] at hp
    obtain ⟨a, _, ha⟩ := hp
    split_ifs at ha
    cases ha
    rfl
  · intro k l m hk hl hm
    simp only [build_random_chunk, List.mem_filterMap]
    constructor
    · rintro ⟨a, _, ha⟩
      by_cases hcond : samples (sampleIndex a.1 a.2.1 a.2.2) < 8
      · rw [if_pos hcond] at ha
        have h := Option.some.inj ha
        have c1 : (a.1 : ℤ) = (k : ℤ) := congrArg (fun p : Coord3 × Block => p.1.1) h
        have c2 : (a.2.1 : ℤ) = (l : ℤ) := congrArg (fun p : Coord3 × Block => p.1.2.1) h
        have c3 : (a.2.2 : ℤ) = (m : ℤ) := congrArg (fun p : Coord3 × Block => p.1.2.2) h
        have e1 : a.1 = k := by exact_mod_cast c1
        have e2 : a.2.1 = l := by exact_mod_cast c2
        have e3 : a.2.2 = m := by exact_mod_cast c3
        rw [e1, e2, e3] at hcond
        exact hcond
      · rw [if_neg hcond] at ha
        exact absurd ha (by simp)
    · intro hcond
      refine ⟨(k, l, m), ?_, ?_⟩
      · simp only [chunkIterCoords, List.mem_flatMap, List.mem_map, List.mem_range]
        exact ⟨k, hk, l, hl, m, hm, rfl⟩
      · exact if_pos hcond

/-- Witness for the amended C3: with every draw equal to 0, the generator
stores a GRASS block at local coordinate `(0,0,0)`. -/
theorem build_random_chunk_amended_witness :
    ((((0 : ℤ), (0 : ℤ), (0 : ℤ)) : Coord3), Block.mk BlockType.GRASS)
      ∈ (build_random_chunk fun _ => 0).blocks :=
  ((build_random_chunk_amended fun _ => 0).2.2 0 0 0
    (by norm_num) (by norm_num) (by norm_num)).mpr (by norm_num)

/-- The u-coordinate atlas table of `build_vertex` (model.rs:207-211),
modelled as the partial lookup that `umap.get` performs
(0.125 = 1/8, 0.1875 = 3/16, 0.25 = 1/4, 0.0625 = 1/16). -/
def umapGet (qt : QuadType) (uv : UV) : Option ℚ :=
  match qt, uv with
  | .GRASS_TOP, .MIN => some (1 / 8)
  | .GRASS_TOP, .MAX => some (3 / 16)
  | .GRASS_SIDE, .MIN => some (3 / 16)
  | .GRASS_SIDE, .MAX => some (1 / 4)
  | .DIRT, .MIN => some (1 / 8)
  | .DIRT, .MAX => some (3 / 16)
  | .STONE, .MIN => some 0
  | .STONE, .MAX => some (1 / 16)

/-- The v-coordinate atlas table of `build_vertex` (model.rs:213-217)
(0.375 = 3/8, 0.4375 = 7/16, 0.9375 = 15/16, 0.875 = 7/8). -/
def vmapGet (qt : QuadType) (uv : UV) : Option ℚ :=
  match qt, uv with
  | .GRASS_TOP, .MIN => some (3 / 8)
  | .GRASS_TOP, .MAX => some (7 / 16)
  | .GRASS_SIDE, .MIN => some (15 / 16)
  | .GRASS_SIDE, .MAX => some 1
  | .DIRT, .MIN => some (15 / 16)
  | .DIRT, .MAX => some 1
  | .STONE, .MIN => some (7 / 8)
  | .STONE, .MAX => some (15 / 16)

/-- The vertex value pushed by `create_vertices` (the draft's `Vertex` literal
with a position and texture coordinates). -/
structure SrcVertex where
  position : ℚ × ℚ × ℚ
  tex_coords : ℚ × ℚ
deriving DecidableEq, Repr

/-- `build_vertex` (model.rs:205-234): position cast to float plus atlas
texture coordinates; the `None => panic!` branches are modelled as `none`;
the stored vertical texture coordinate is the complement `1 - v` of the
table value. -/
def build_vertex (position : ℤ × ℤ × ℤ) (quadtype : QuadType) (u v : UV) :
    Option SrcVertex :=
  match umapGet quadtype u with
  | some i =>
    match vmapGet quadtype v with
    | some j =>
      some ⟨((position.1 : ℚ), (position.2.1 : ℚ), (position.2.2 : ℚ)), (i, 1 - j)⟩
    | none => none
  | none => none

/-- The six cube faces, in the order `create_vertices` emits them. -/
inductive Face
  | top
  | bottom
  | right
  | left
  | front
  | back
deriving DecidableEq, Repr

/-- The per-face `temp_quadtype` computed in `create_vertices`
(model.rs:237-315): base quadtype STONE, replaced by DIRT for a DIRT block;
for a GRASS block the top face uses GRASS_TOP, the bottom face DIRT, and the
four vertical faces GRASS_SIDE. -/
def faceQuadtype (blocktype : BlockType) (f : Face) : QuadType :=
  let quadtype := if blocktype = BlockType.DIRT then QuadType.DIRT else QuadType.STONE
  match f with
  | .top => if blocktype = BlockType.GRASS then QuadType.GRASS_TOP else quadtype
  | .bottom => if blocktype = BlockType.GRASS then QuadType.DIRT else quadtype
  | .right => if blocktype = BlockType.GRASS then QuadType.GRASS_SIDE else quadtype
  | .left => if blocktype = BlockType.GRASS then QuadType.GRASS_SIDE else quadtype
  | .front => if blocktype = BlockType.GRASS then QuadType.GRASS_SIDE else quadtype
  | .back => if blocktype = BlockType.GRASS then QuadType.GRASS_SIDE else quadtype

/-- The 24 `build_vertex` calls of `create_vertices` (model.rs:253-315), in
source order: position, per-face quadtype, and the (u, v) corner roles. -/
def vertexCalls (bt : BlockType) : List ((ℤ × ℤ × ℤ) × QuadType × UV × UV) :=
  [((0, 0, 1), faceQuadtype bt .top, .MIN, .MIN),
   ((1, 0, 1), faceQuadtype bt .top, .MAX, .MIN),
   ((1, 1, 1), faceQuadtype bt .top, .MAX, .MAX),
   ((0, 1, 1), faceQuadtype bt .top, .MIN, .MAX),
   ((0, 1, 0), faceQuadtype bt .bottom, .MAX, .MIN),
   ((1, 1, 0), faceQuadtype bt .bottom, .MIN, .MIN),
   ((1, 0, 0), faceQuadtype bt .bottom, .MIN, .MAX),
   ((0, 0, 0), faceQuadtype bt .bottom, .MAX, .MAX),
   ((1, 0, 0), faceQuadtype bt .right, .MIN, .MIN),
   ((1, 1, 0), faceQuadtype bt .right, .MAX, .MIN),
   ((1, 1, 1), faceQuadtype bt .right, .MAX, .MAX),
   ((1, 0, 1), faceQuadtype bt .right, .MIN, .MAX),
   ((0, 0, 1), faceQuadtype bt .left, .MIN, .MAX),
   ((0, 1, 1), faceQuadtype bt .left, .MAX, .MAX),
   ((0, 1, 0), faceQuadtype bt .left, .MAX, .MIN),
   ((0, 0, 0), faceQuadtype bt .left, .MIN, .MIN),
   ((1, 1, 0), faceQuadtype bt .front, .MAX, .MIN),
   ((0, 1, 0), faceQuadtype bt .front, .MIN, .MIN),
   ((0, 1, 1), faceQuadtype bt .front, .MIN, .MAX),
   ((1, 1, 1), faceQuadtype bt .front, .MAX, .MAX),
   ((1, 0, 1), faceQuadtype bt .back, .MAX, .MAX),
   ((0, 0, 1), faceQuadtype bt .back, .MIN, .MAX),
   ((0, 0, 0), faceQuadtype bt .back, .MIN, .MIN),
   ((1, 0, 0), faceQuadtype bt .back, .MAX, .MIN)]

/-- `create_vertices` (model.rs:204-331): the 24 cube vertices in push order;
`none` if any atlas lookup were to panic. -/
def create_vertices (bt : BlockType) : Option (List SrcVertex) :=
  (vertexCalls bt).mapM fun c => build_vertex c.1 c.2.1 c.2.2.1 c.2.2.2

/-- The face-category assignment as the spec words it: Grass uses grass-top
on the top face, dirt on the bottom face and grass-side on the four vertical
faces; Dirt and Stone use their own single category on all six faces.
Written from the spec's words, for comparison with `faceQuadtype`. -/
def specFaceCategory (bt : BlockType) (f : Face) : QuadType :=
  match bt, f with
  | .GRASS, .top => .GRASS_TOP
  | .GRASS, .bottom => .DIRT
  | .GRASS, _ => .GRASS_SIDE
  | .DIRT, _ => .DIRT
  | .STONE, _ => .STONE

/-- The raw u value of the atlas table (total read of `umapGet`). -/
def uTableVal (qt : QuadType) (uv : UV) : ℚ := (umapGet qt uv).getD 0

/-- The raw v value of the atlas table (total read of `vmapGet`). -/
def vTableVal (qt : QuadType) (uv : UV) : ℚ := (vmapGet qt uv).getD 0

/-- C6: `create_vertices` assigns face-categories exactly as the spec states
(`faceQuadtype` agrees with `specFaceCategory` on every block type and face),
and every emitted vertex stores the u table value unchanged and the vertical
texture coordinate complemented to `1 - v_lookup`. -/
theorem create_vertices_categories_and_v_complement :
    (∀ (bt : BlockType) (f : Face), faceQuadtype bt f = specFaceCategory bt f)
    ∧ ∀ (bt : BlockType), ∀ c ∈ vertexCalls bt,
        build_vertex c.1 c.2.1 c.2.2.1 c.2.2.2
          = some ⟨((c.1.1 : ℚ), (c.1.2.1 : ℚ), (c.1.2.2 : ℚ)),
                  (uTableVal c.2.1 c.2.2.1, 1 - vTableVal c.2.1 c.2.2.2)⟩ := by
  constructor
  · intro bt f
    cases bt <;> cases f <;> rfl
  · intro bt c hc
    cases bt <;> (simp only [vertexCalls] at hc; fin_cases hc <;> rfl)

/-- Witness for C6: the first vertex of the grass cube's top face stores the
grass-top u value and the complemented v value. -/
theorem create_vertices_categories_and_v_complement_witness :
    build_vertex ((0 : ℤ), (0 : ℤ), (1 : ℤ)) (faceQuadtype BlockType.GRASS Face.top) UV.MIN UV.MIN
      = some ⟨((0 : ℚ), (0 : ℚ), (1 : ℚ)),
              (uTableVal QuadType.GRASS_TOP UV.MIN, 1 - vTableVal QuadType.GRASS_TOP UV.MIN)⟩ := by
  have h := create_vertices_categories_and_v_complement.2 BlockType.GRASS
    (((0, 0, 1) : ℤ × ℤ × ℤ), faceQuadtype BlockType.GRASS Face.top, UV.MIN, UV.MIN)
    (List.mem_cons_self _ _)
  simpa using h

/-- C7: the atlas UV lookup is total on the finite quadtype × corner-role
domain: both tables always return an entry, so `build_vertex` never reaches a
panic branch and always produces a vertex. -/
theorem atlas_lookup_total (qt : QuadType) (u v : UV) (p : ℤ × ℤ × ℤ) :
    (umapGet qt u).isSome = true
    ∧ (vmapGet qt v).isSome = true
    ∧ (build_vertex p qt u v).isSome = true := by
  cases qt <;> cases u <;> cases v <;> exact ⟨rfl, rfl, rfl⟩

/-- Modelled from the spec: `GlobalCoord = ChunkCoord * CHUNK_SIZE +
LocalCoord`, component-wise. -/
def globalOfChunkLocal (cc lc : Coord3) : Coord3 :=
  (CHUNKSIZE * cc.1 + lc.1, CHUNKSIZE * cc.2.1 + lc.2.1, CHUNKSIZE * cc.2.2 + lc.2.2)

/-- A 3-vector of block coordinates cast to float. -/
def ratCast3 (g : Coord3) : ℚ × ℚ × ℚ := ((g.1 : ℚ), (g.2.1 : ℚ), (g.2.2 : ℚ))

/-- Modelled from the spec: the per-instance translation list for one block
type - every block of that type in every chunk contributes its global
coordinate cast to float.  The instancing loop of `Model::load`
(model.rs:432-439) is an empty sketch in src/; section 4.3(b) of the spec
defines its behaviour. -/
def instanceTranslations (w : World) (t : BlockType) : List (ℚ × ℚ × ℚ) :=
  w.chunks.flatMap fun p =>
    p.2.blocks.filterMap fun q =>
      if q.2.blocktype = t then some (ratCast3 (globalOfChunkLocal p.1 q.1)) else none

/-- The global coordinates (uncast) of all blocks of one type, chunk by
chunk. -/
def blocksGlobalsOfType (w : World) (t : BlockType) : List Coord3 :=
  w.chunks.flatMap fun p =>
    p.2.blocks.filterMap fun q =>
      if q.2.blocktype = t then some (globalOfChunkLocal p.1 q.1) else none

/-- Modelled from the spec: a MeshBatch is one block type's shared geometry
plus its instance translations. -/
structure MeshBatch where
  blocktype : BlockType
  instances : List (ℚ × ℚ × ℚ)
deriving DecidableEq, Repr

/-- The closed enumeration of block types, in declaration order. -/
def allBlockTypes : List BlockType := [.GRASS, .DIRT, .STONE]

/-- Modelled from the spec: mesh building emits one batch per block type
that has at least one matching instance; block types with zero instances are
omitted entirely. -/
def buildMeshBatches (w : World) : List MeshBatch :=
  allBlockTypes.filterMap fun t =>
    let ins := instanceTranslations w t
    if ins.isEmpty then none else some ⟨t, ins⟩

/-- The number of blocks of type `t` across all chunks of `w`. -/
def countBlocksOfType (w : World) (t : BlockType) : ℕ :=
  ((w.chunks.flatMap fun p => p.2.blocks).filter fun q => q.2.blocktype = t).length

theorem mem_buildMeshBatches (w : World) (b : MeshBatch) :
    b ∈ buildMeshBatches w ↔
      b.blocktype ∈ allBlockTypes
      ∧ b.instances = instanceTranslations w b.blocktype
      ∧ (instanceTranslations w b.blocktype).isEmpty = false := by
  simp only [buildMeshBatches, List.mem_filterMap]
  constructor
  · rintro ⟨a, ha, hif⟩
    by_cases he : (instanceTranslations w a).isEmpty
    · rw [if_pos he] at hif
      cases hif
    · rw [if_neg he] at hif
      cases hif
      exact ⟨ha, rfl, by simpa using he⟩
  · rintro ⟨ha, hins, hne⟩
    refine ⟨b.blocktype, ha, ?_⟩
    rw [if_neg (by simp [hne]), ← hins]

theorem length_filterMap_blocks (t : BlockType) (f : Coord3 × Block → ℚ × ℚ × ℚ)
    (bl : List (Coord3 × Block)) :
    (bl.filterMap fun q => if q.2.blocktype = t then some (f q) else none).length
      = (bl.filter fun q => q.2.blocktype = t).length := by
  induction bl with
  | nil => rfl
  | cons a l ih =>
    by_cases h : a.2.blocktype = t <;>
      simp [List.filterMap_cons, List.filter_cons, h, ih]

theorem instanceTranslations_length (w : World) (t : BlockType) :
    (instanceTranslations w t).length = countBlocksOfType w t := by
  rw [instanceTranslations, countBlocksOfType, List.filter_flatMap,
    List.length_flatMap, List.length_flatMap]
  have hfun : (List.length ∘ fun p : Coord3 × Chunk =>
        p.2.blocks.filterMap fun q =>
          if q.2.blocktype = t then some (ratCast3 (globalOfChunkLocal p.1 q.1)) else none)
      = (List.length ∘ fun p : Coord3 × Chunk =>
          p.2.blocks.filter fun q => q.2.blocktype = t) :=
    funext fun p => length_filterMap_blocks t _ p.2.blocks
  rw [hfun]

theorem instanceTranslations_eq_map (w : World) (t : BlockType) :
    instanceTranslations w t = (blocksGlobalsOfType w t).map ratCast3 := by
  rw [instanceTranslations, blocksGlobalsOfType, List.map_flatMap]
  refine List.flatMap_congr fun p _ => ?_
  rw [List.map_filterMap]
  congr 1
  funext q
  by_cases h : q.2.blocktype = t <;> simp [h]

/-- C8: mesh building produces a batch for block type `t` exactly when the
world holds at least one block of type `t`; every produced batch's instance
list has exactly as many entries as there are blocks of its type across all
chunks, each entry being that block's global coordinate cast to float. -/
theorem mesh_batches_match_world (w : World) (t : BlockType) :
    ((∃ b ∈ buildMeshBatches w, b.blocktype = t) ↔ 1 ≤ countBlocksOfType w t)
    ∧ ∀ b ∈ buildMeshBatches w,
        b.instances.length = countBlocksOfType w b.blocktype
        ∧ b.instances = (blocksGlobalsOfType w b.blocktype).map ratCast3 := by
  constructor
  · constructor
    · rintro ⟨b, hb, rfl⟩
      have h := (mem_buildMeshBatches w b).mp hb
      have hlen := instanceTranslations_length w b.blocktype
      have hpos := List.length_pos.mpr (List.isEmpty_eq_false.mp h.2.2)
      omega
    · intro hcount
      refine ⟨⟨t, instanceTranslations w t⟩, ?_, rfl⟩
      refine (mem_buildMeshBatches w _).mpr ⟨?_, rfl, ?_⟩
      · cases t <;> simp [allBlockTypes]
      · show (instanceTranslations w t).isEmpty = false
        have hlen := instanceTranslations_length w t
        refine List.isEmpty_eq_false.mpr (List.length_pos.mp ?_)
        omega
  · intro b hb
    have h := (mem_buildMeshBatches w b).mp hb
    refine ⟨?_, ?_⟩
    · rw [h.2.1]
      exact instanceTranslations_length w b.blocktype
    · rw [h.2.1]
      exact instanceTranslations_eq_map w b.blocktype

/-- A one-chunk, one-stone-block world used as a concrete witness. -/
def sampleWorld : World :=
  World.mk [(((0 : ℤ), (0 : ℤ), (0 : ℤ)),
    Chunk.mk [(((1 : ℤ), (1 : ℤ), (1 : ℤ)), Block.mk BlockType.STONE)])]

/-- Witness for C8 on `sampleWorld`: the stone batch exists and its instance
count matches the single stone block. -/
theorem mesh_batches_match_world_witness :
    (∃ b ∈ buildMeshBatches sampleWorld, b.blocktype = BlockType.STONE)
    ∧ (MeshBatch.mk BlockType.STONE (instanceTranslations sampleWorld BlockType.STONE)).instances.length
        = countBlocksOfType sampleWorld BlockType.STONE := by
  constructor
  · refine (mesh_batches_match_world sampleWorld BlockType.STONE).1.mpr ?_
    have h1 : countBlocksOfType sampleWorld BlockType.STONE = 1 := rfl
    omega
  · exact ((mesh_batches_match_world sampleWorld BlockType.STONE).2
      (MeshBatch.mk BlockType.STONE (instanceTranslations sampleWorld BlockType.STONE))
      ((mem_buildMeshBatches sampleWorld _).mpr ⟨by decide, rfl, rfl⟩)).1

/-- `MAX_DISTANCE` (mouse_picker.rs:40): the fixed DDA step budget. -/
def MAX_DISTANCE : ℕ := 100

/-- Per-axis step sign (mouse_picker.rs:46-48): `+1` when the direction
component is `≥ 0`, else `-1`. -/
def stepOf (d : ℚ) : ℤ := if 0 ≤ d then 1 else -1

/-- Initial per-axis `t_max` (mouse_picker.rs:51-59): the parametric distance
`(next_block_boundary - ray_start) / direction` to the next voxel boundary,
or the `f32::MAX` sentinel when the direction component is exactly zero.
`cur` is the `current_block` component and `rs` the `ray_start` component
(equal at initialisation, where `next_block_boundary = cur + step`). -/
def tMaxInit (cur rs step : ℤ) (d : ℚ) : ℚ :=
  if d ≠ 0 then (((cur + step) - rs : ℤ) : ℚ) / d else f32MAX

/-- Per-axis `t_delta` (mouse_picker.rs:65-67): `1/d * step`, or the
`f32::MAX` sentinel when the direction component is exactly zero. -/
def tDeltaOf (step : ℤ) (d : ℚ) : ℚ :=
  if d ≠ 0 then 1 / d * (step : ℚ) else f32MAX

/-- The mutable data of the DDA loop (mouse_picker.rs:69-97). -/
structure DDAState where
  curX : ℤ
  curY : ℤ
  curZ : ℤ
  tMaxX : ℚ
  tMaxY : ℚ
  tMaxZ : ℚ
  counter : ℕ
  found : Bool
  result : Option Coord3
deriving Repr

/-- The loop-constant data of the DDA traversal: step signs, `t_delta`s and
the world lookup called at mouse_picker.rs:92. -/
structure DDAParams where
  stepX : ℤ
  stepY : ℤ
  stepZ : ℤ
  tDeltaX : ℚ
  tDeltaY : ℚ
  tDeltaZ : ℚ
  lookup : Coord3 → Option BlockType

/-- Axis selection and advance of one loop iteration
(mouse_picker.rs:74-90). -/
def ddaAdvance (p : DDAParams) (s : DDAState) : DDAState :=
  if s.tMaxX < s.tMaxY then
    if s.tMaxX < s.tMaxZ then
      { s with curX := s.curX + p.stepX, tMaxX := s.tMaxX + p.tDeltaX }
    else
      { s with curZ := s.curZ + p.stepZ, tMaxZ := s.tMaxZ + p.tDeltaZ }
  else
    if s.tMaxY < s.tMaxZ then
      { s with curY := s.curY + p.stepY, tMaxY := s.tMaxY + p.tDeltaY }
    else
      { s with curZ := s.curZ + p.stepZ, tMaxZ := s.tMaxZ + p.tDeltaZ }

/-- The world query ending one loop iteration (mouse_picker.rs:92-96): a hit
sets `found` and `result`. -/
def ddaCheck (p : DDAParams) (s : DDAState) : DDAState :=
  match p.lookup (s.curX, s.curY, s.curZ) with
  | some _ => { s with found := true, result := some (s.curX, s.curY, s.curZ) }
  | none => s

/-- One guarded iteration of `while found == false && counter < MAX_DISTANCE`
(mouse_picker.rs:73-97); when the guard fails the state is unchanged. -/
def ddaStep (p : DDAParams) (s : DDAState) : DDAState :=
  if s.found = false ∧ s.counter < MAX_DISTANCE then
    ddaCheck p { ddaAdvance p s with counter := s.counter + 1 }
  else s

/-- `n` guarded iterations.  Each effective iteration increments `counter`
and the guard freezes the state once `found` is set or `counter` reaches
`MAX_DISTANCE`, so `ddaRun p s MAX_DISTANCE` is the exit state of the
source's while loop. -/
def ddaRun (p : DDAParams) (s : DDAState) : ℕ → DDAState
  | 0 => s
  | n + 1 => ddaRun p (ddaStep p s) n

/-- The traversal parameters built at mouse_picker.rs:46-67 from the
normalized world-space ray direction `(dx, dy, dz)`. -/
def mkParams (lookup : Coord3 → Option BlockType) (dx dy dz : ℚ) : DDAParams :=
  { stepX := stepOf dx
    stepY := stepOf dy
    stepZ := stepOf dz
    tDeltaX := tDeltaOf (stepOf dx) dx
    tDeltaY := tDeltaOf (stepOf dy) dy
    tDeltaZ := tDeltaOf (stepOf dz) dz
    lookup := lookup }

/-- The traversal's initial state (mouse_picker.rs:42-59): `current_block`
from the camera position, `ray_start` its clone, per-axis `t_max` from the
next block boundary. -/
def initState (camX camY camZ dx dy dz : ℚ) : DDAState :=
  { curX := (current_block_init camX camY camZ).1
    curY := (current_block_init camX camY camZ).2.1
    curZ := (current_block_init camX camY camZ).2.2
    tMaxX := tMaxInit (current_block_init camX camY camZ).1 (ray_start camX camY camZ).1 (stepOf dx) dx
    tMaxY := tMaxInit (current_block_init camX camY camZ).2.1 (ray_start camX camY camZ).2.1 (stepOf dy) dy
    tMaxZ := tMaxInit (current_block_init camX camY camZ).2.2 (ray_start camX camY camZ).2.2 (stepOf dz) dz
    counter := 0
    found := false
    result := none }

/-- `MousePicker::get_model_coordinates_for_voxel_under_mouse`
(mouse_picker.rs:40-99) from the normalized world-space ray direction on;
the screen-to-world unprojection (lines 15-36, matrix plumbing the spec
declares external) is summarized by the direction argument, and the world is
summarized by its lookup function. -/
def get_model_coordinates_for_voxel_under_mouse
    (lookup : Coord3 → Option BlockType) (camX camY camZ dx dy dz : ℚ) :
    Option Coord3 :=
  (ddaRun (mkParams lookup dx dy dz) (initState camX camY camZ dx dy dz) MAX_DISTANCE).result

theorem ddaCheck_air (p : DDAParams) (s : DDAState)
    (h : p.lookup (s.curX, s.curY, s.curZ) = none) : ddaCheck p s = s := by
  rw [ddaCheck, h]

theorem ddaAdvance_found (p : DDAParams) (s : DDAState) :
    (ddaAdvance p s).found = s.found := by
  rw [ddaAdvance]
  split_ifs <;> rfl

theorem ddaAdvance_result (p : DDAParams) (s : DDAState) :
    (ddaAdvance p s).result = s.result := by
  rw [ddaAdvance]
  split_ifs <;> rfl

theorem ddaAdvance_counter (p : DDAParams) (s : DDAState) :
    (ddaAdvance p s).counter = s.counter := by
  rw [ddaAdvance]
  split_ifs <;> rfl

theorem ddaRun_air (p : DDAParams) (hair : ∀ c, p.lookup c = none) :
    ∀ (n : ℕ) (s : DDAState), s.found = false → s.result = none →
      s.counter + n = MAX_DISTANCE →
      (ddaRun p s n).found = false ∧ (ddaRun p s n).result = none
        ∧ (ddaRun p s n).counter = MAX_DISTANCE := by
  intro n
  induction n with
  | zero =>
    intro s hf hr hc
    simp only [ddaRun]
    exact ⟨hf, hr, by omega⟩
  | succ n ih =>
    intro s hf hr hc
    have hguard : s.found = false ∧ s.counter < MAX_DISTANCE := ⟨hf, by omega⟩
    have h1 : ddaStep p s = { ddaAdvance p s with counter := s.counter + 1 } := by
      rw [ddaStep, if_pos hguard]
      exact ddaCheck_air p _ (hair _)
    rw [ddaRun, h1]
    refine ih _ ?_ ?_ ?_
    · show (ddaAdvance p s).found = false
      rw [ddaAdvance_found]
      exact hf
    · show (ddaAdvance p s).result = none
      rw [ddaAdvance_result]
      exact hr
    · show s.counter + 1 + n = MAX_DISTANCE
      omega

/-- C4: in an entirely-air world the traversal loop runs exactly
`MAX_DISTANCE = 100` iterations (the exit counter equals 100 - never fewer,
never more, whatever the camera position and ray direction, with no
world-extent bound involved) and the picker returns `none`. -/
theorem all_air_world_runs_exactly_100_steps (camX camY camZ dx dy dz : ℚ) :
    (ddaRun (mkParams (fun _ => none) dx dy dz)
        (initState camX camY camZ dx dy dz) MAX_DISTANCE).counter = MAX_DISTANCE
    ∧ get_model_coordinates_for_voxel_under_mouse
        (fun _ => none) camX camY camZ dx dy dz = none := by
  have h := ddaRun_air (mkParams (fun _ => none) dx dy dz) (fun c => rfl)
    MAX_DISTANCE (initState camX camY camZ dx dy dz) rfl rfl (by rfl)
  exact ⟨h.2.2, h.2.1⟩

/-- Loop invariant for the traversal: before any result is recorded the
result is `none`; a recorded result is the current voxel and was recorded
after at least one advance; and the current voxel is the start voxel offset
by per-axis step counts summing to `counter`. -/
def steppedFrom (p : DDAParams) (sx sy sz : ℤ) (s : DDAState) : Prop :=
  (s.found = false → s.result = none)
  ∧ (∀ v, s.result = some v → 1 ≤ s.counter ∧ v = (s.curX, s.curY, s.curZ))
  ∧ ∃ a b c : ℕ, a + b + c = s.counter
      ∧ s.curX = sx + p.stepX * a
      ∧ s.curY = sy + p.stepY * b
      ∧ s.curZ = sz + p.stepZ * c

theorem steppedFrom_step (p : DDAParams) (sx sy sz : ℤ) (s : DDAState)
    (h : steppedFrom p sx sy sz s) : steppedFrom p sx sy sz (ddaStep p s) := by
  by_cases hg : s.found = false ∧ s.counter < MAX_DISTANCE
  · rw [ddaStep, if_pos hg]
    obtain ⟨h1, h2, a, b, c, habc, hx, hy, hz⟩ := h
    obtain ⟨a', b', c', habc', hx', hy', hz'⟩ :
        ∃ a' b' c' : ℕ, a' + b' + c' = s.counter + 1
          ∧ (ddaAdvance p s).curX = sx + p.stepX * a'
          ∧ (ddaAdvance p s).curY = sy + p.stepY * b'
          ∧ (ddaAdvance p s).curZ = sz + p.stepZ * c' := by
      rw [ddaAdvance]
      split_ifs
      · exact ⟨a + 1, b, c, by omega,
          by push_cast; rw [show s.curX = sx + p.stepX * a from hx]; ring, hy, hz⟩
      · exact ⟨a, b, c + 1, by omega, hx, hy,
          by push_cast; rw [show s.curZ = sz + p.stepZ * c from hz]; ring⟩
      · exact ⟨a, b + 1, c, by omega, hx,
          by push_cast; rw [show s.curY = sy + p.stepY * b from hy]; ring, hz⟩
      · exact ⟨a, b, c + 1, by omega, hx, hy,
          by push_cast; rw [show s.curZ = sz + p.stepZ * c from hz]; ring⟩
    have hcnt : ({ ddaAdvance p s with counter := s.counter + 1 } : DDAState).counter
        = s.counter + 1 := rfl
    rw [ddaCheck]
    rcases hlk : p.lookup (({ ddaAdvance p s with counter := s.counter + 1 } : DDAState).curX,
        ({ ddaAdvance p s with counter := s.counter + 1 } : DDAState).curY,
        ({ ddaAdvance p s with counter := s.counter + 1 } : DDAState).curZ) with _ | bt
    · refine ⟨fun _ => ?_, fun v hv => ?_, a', b', c', by rw [hcnt]; omega, hx', hy', hz'⟩
      · show (ddaAdvance p s).result = none
        rw [ddaAdvance_result]
        exact h1 hg.1
      · exfalso
        have hr : (ddaAdvance p s).result = some v := hv
        rw [ddaAdvance_result, h1 hg.1] at hr
        cases hr
    · refine ⟨fun hff => ?_, fun v hv => ?_, a', b', c', by simp only [hcnt]; omega, hx', hy', hz'⟩
      · cases hff
      · have hv' : some ((ddaAdvance p s).curX, (ddaAdvance p s).curY, (ddaAdvance p s).curZ)
            = some v := hv
        refine ⟨by simp only [hcnt]; omega, (Option.some.inj hv').symm⟩
  · rw [ddaStep, if_neg hg]
    exact h

theorem steppedFrom_run (p : DDAParams) (sx sy sz : ℤ) :
    ∀ (n : ℕ) (s : DDAState), steppedFrom p sx sy sz s →
      steppedFrom p sx sy sz (ddaRun p s n) := by
  intro n
  induction n with
  | zero =>
    intro s h
    simpa only [ddaRun] using h
  | succ n ih =>
    intro s h
    rw [ddaRun]
    exact ih _ (steppedFrom_step p sx sy sz s h)

theorem mkParams_step_unit (lookup : Coord3 → Option BlockType) (dx dy dz : ℚ) :
    ((mkParams lookup dx dy dz).stepX = 1 ∨ (mkParams lookup dx dy dz).stepX = -1)
    ∧ ((mkParams lookup dx dy dz).stepY = 1 ∨ (mkParams lookup dx dy dz).stepY = -1)
    ∧ ((mkParams lookup dx dy dz).stepZ = 1 ∨ (mkParams lookup dx dy dz).stepZ = -1) := by
  simp only [mkParams, stepOf]
  refine ⟨?_, ?_, ?_⟩ <;> split_ifs <;> simp

/-- C10: whenever the picker returns a voxel, that voxel differs from the
traversal's starting voxel `ray_start` (the voxel the code derives from the
camera position): the loop advances `current_block` before its first world
lookup, so the starting voxel is never queried and never returned. -/
theorem picker_never_returns_ray_start
    (lookup : Coord3 → Option BlockType) (camX camY camZ dx dy dz : ℚ) (v : Coord3)
    (h : get_model_coordinates_for_voxel_under_mouse lookup camX camY camZ dx dy dz
        = some v) :
    v ≠ ray_start camX camY camZ := by
  have hinv0 : steppedFrom (mkParams lookup dx dy dz)
      (ray_start camX camY camZ).1 (ray_start camX camY camZ).2.1
      (ray_start camX camY camZ).2.2 (initState camX camY camZ dx dy dz) := by
    refine ⟨fun _ => rfl, fun w hw => absurd hw (by simp [initState]), 0, 0, 0, rfl, ?_, ?_, ?_⟩ <;>
      simp [initState, ray_start]
  have hinv := steppedFrom_run (mkParams lookup dx dy dz)
    (ray_start camX camY camZ).1 (ray_start camX camY camZ).2.1
    (ray_start camX camY camZ).2.2 MAX_DISTANCE
    (initState camX camY camZ dx dy dz) hinv0
  obtain ⟨h1, h2, a, b, c, habc, hx, hy, hz⟩ := hinv
  obtain ⟨hcnt, hveq⟩ := h2 v h
  intro heq
  obtain ⟨hsx, hsy, hsz⟩ := mkParams_step_unit lookup dx dy dz
  have hex : v.1 = (ray_start camX camY camZ).1 := by rw [heq]
  have hey : v.2.1 = (ray_start camX camY camZ).2.1 := by rw [heq]
  have hez : v.2.2 = (ray_start camX camY camZ).2.2 := by rw [heq]
  rw [hveq] at hex hey hez
  simp only at hex hey hez
  have ha : a = 0 := by rcases hsx with h | h <;> rw [h] at hx <;> omega
  have hb : b = 0 := by rcases hsy with h | h <;> rw [h] at hy <;> omega
  have hc : c = 0 := by rcases hsz with h | h <;> rw [h] at hz <;> omega
  omega

theorem ddaRun_frozen (p : DDAParams) :
    ∀ (n : ℕ) (s : DDAState), s.found = true → ddaRun p s n = s := by
  intro n
  induction n with
  | zero =>
    intro s _
    simp only [ddaRun]
  | succ n ih =>
    intro s hf
    show ddaRun p (ddaStep p s) n = s
    rw [ddaStep, if_neg (by simp [hf])]
    exact ih s hf

/-- A world lookup with a single stone block at `(1,0,0)`. -/
def oneStoneLookup : Coord3 → Option BlockType :=
  fun c => if c = ((1 : ℤ), (0 : ℤ), (0 : ℤ)) then some BlockType.STONE else none

/-- Witness for C10: a world whose only block is at `(1,0,0)`, camera at the
origin, ray along `+X`: the picker returns `(1,0,0)`, distinct from the
starting voxel `(0,0,0)`. -/
theorem picker_never_returns_ray_start_witness :
    ((1 : ℤ), (0 : ℤ), (0 : ℤ)) ≠ ray_start 0 0 0 := by
  refine picker_never_returns_ray_start oneStoneLookup 0 0 0 1 0 0
    ((1 : ℤ), (0 : ℤ), (0 : ℤ)) ?_
  have hs0 : initState 0 0 0 1 0 0 =
      { curX := 0, curY := 0, curZ := 0, tMaxX := 1, tMaxY := f32MAX, tMaxZ := f32MAX,
        counter := 0, found := false, result := none } := by
    simp only [initState, current_block_init, ray_start, floor_as_i32, as_i32, ratTrunc,
      i32clamp, I32MIN, I32MAX, tMaxInit, stepOf]
    norm_num
  have h1 : ddaStep (mkParams oneStoneLookup 1 0 0)
      { curX := 0, curY := 0, curZ := 0, tMaxX := 1, tMaxY := f32MAX, tMaxZ := f32MAX,
        counter := 0, found := false, result := none } =
      { curX := 1, curY := 0, curZ := 0, tMaxX := 2, tMaxY := f32MAX, tMaxZ := f32MAX,
        counter := 1, found := true, result := some ((1 : ℤ), (0 : ℤ), (0 : ℤ)) } := by
    rw [ddaStep, if_pos ⟨rfl, by norm_num [MAX_DISTANCE]⟩]
    have hadv : ddaAdvance (mkParams oneStoneLookup 1 0 0)
        { curX := 0, curY := 0, curZ := 0, tMaxX := 1, tMaxY := f32MAX, tMaxZ := f32MAX,
          counter := 0, found := false, result := none } =
        { curX := 1, curY := 0, curZ := 0, tMaxX := 2, tMaxY := f32MAX, tMaxZ := f32MAX,
          counter := 0, found := false, result := none } := by
      rw [ddaAdvance, if_pos (by norm_num [f32MAX]), if_pos (by norm_num [f32MAX])]
      simp only [mkParams, stepOf, tDeltaOf]
      norm_num
    rw [hadv, ddaCheck]
    simp only [mkParams, oneStoneLookup]
    norm_num
  show (ddaRun (mkParams oneStoneLookup 1 0 0) (initState 0 0 0 1 0 0) MAX_DISTANCE).result
      = some ((1 : ℤ), (0 : ℤ), (0 : ℤ))
  rw [hs0]
  show (ddaRun (mkParams oneStoneLookup 1 0 0)
      (ddaStep (mkParams oneStoneLookup 1 0 0)
        { curX := 0, curY := 0, curZ := 0, tMaxX := 1, tMaxY := f32MAX, tMaxZ := f32MAX,
          counter := 0, found := false, result := none }) 99).result
      = some ((1 : ℤ), (0 : ℤ), (0 : ℤ))
  rw [h1, ddaRun_frozen _ 99 _ rfl]

theorem ddaCheck_curX (p : DDAParams) (s : DDAState) : (ddaCheck p s).curX = s.curX := by
  rw [ddaCheck]
  cases p.lookup (s.curX, s.curY, s.curZ) <;> rfl

theorem ddaCheck_curY (p : DDAParams) (s : DDAState) : (ddaCheck p s).curY = s.curY := by
  rw [ddaCheck]
  cases p.lookup (s.curX, s.curY, s.curZ) <;> rfl

theorem ddaCheck_curZ (p : DDAParams) (s : DDAState) : (ddaCheck p s).curZ = s.curZ := by
  rw [ddaCheck]
  cases p.lookup (s.curX, s.curY, s.curZ) <;> rfl

theorem ddaCheck_tMaxX (p : DDAParams) (s : DDAState) : (ddaCheck p s).tMaxX = s.tMaxX := by
  rw [ddaCheck]
  cases p.lookup (s.curX, s.curY, s.curZ) <;> rfl

theorem ddaCheck_tMaxY (p : DDAParams) (s : DDAState) : (ddaCheck p s).tMaxY = s.tMaxY := by
  rw [ddaCheck]
  cases p.lookup (s.curX, s.curY, s.curZ) <;> rfl

theorem ddaCheck_tMaxZ (p : DDAParams) (s : DDAState) : (ddaCheck p s).tMaxZ = s.tMaxZ := by
  rw [ddaCheck]
  cases p.lookup (s.curX, s.curY, s.curZ) <;> rfl

theorem ddaCheck_counter (p : DDAParams) (s : DDAState) : (ddaCheck p s).counter = s.counter := by
  rw [ddaCheck]
  cases p.lookup (s.curX, s.curY, s.curZ) <;> rfl

theorem keepX_viaY (p : DDAParams) (h2 : p.tDeltaY ≤ 2) :
    ∀ (n : ℕ) (s : DDAState), s.counter + n ≤ MAX_DISTANCE → s.tMaxX = f32MAX →
      s.tMaxY ≤ 2 * ((s.counter : ℚ) + 1) →
      (ddaRun p s n).curX = s.curX := by
  intro n
  induction n with
  | zero =>
    intro s _ _ _
    simp only [ddaRun]
  | succ n ih =>
    intro s hcn hX hY
    show (ddaRun p (ddaStep p s) n).curX = s.curX
    by_cases hg : s.found = false ∧ s.counter < MAX_DISTANCE
    · rw [ddaStep, if_pos hg]
      have hcQ : (s.counter : ℚ) ≤ 100 := by
        have h100 : s.counter ≤ 100 := by
          have := hg.2
          rw [MAX_DISTANCE] at this
          omega
        exact_mod_cast h100
      have hYbig : s.tMaxY < f32MAX := by
        have hle : s.tMaxY ≤ 202 := by linarith
        have hcmp : (202 : ℚ) < f32MAX := by norm_num [f32MAX]
        linarith
      have hnotxy : ¬ (s.tMaxX < s.tMaxY) := by
        rw [hX]
        exact not_lt.mpr (le_of_lt hYbig)
      rw [ddaAdvance, if_neg hnotxy]
      by_cases hyz : s.tMaxY < s.tMaxZ
      · rw [if_pos hyz]
        refine (ih _ ?_ ?_ ?_).trans ?_
        · rw [ddaCheck_counter]
          show s.counter + 1 + n ≤ MAX_DISTANCE
          omega
        · rw [ddaCheck_tMaxX]
          exact hX
        · rw [ddaCheck_tMaxY, ddaCheck_counter]
          show s.tMaxY + p.tDeltaY ≤ 2 * (((s.counter + 1 : ℕ) : ℚ) + 1)
          push_cast
          linarith
        · rw [ddaCheck_curX]
      · rw [if_neg hyz]
        refine (ih _ ?_ ?_ ?_).trans ?_
        · rw [ddaCheck_counter]
          show s.counter + 1 + n ≤ MAX_DISTANCE
          omega
        · rw [ddaCheck_tMaxX]
          exact hX
        · rw [ddaCheck_tMaxY, ddaCheck_counter]
          show s.tMaxY ≤ 2 * (((s.counter + 1 : ℕ) : ℚ) + 1)
          push_cast
          linarith
        · rw [ddaCheck_curX]
    · rw [ddaStep, if_neg hg]
      exact ih s (by omega) hX hY

theorem keepX_viaZ (p : DDAParams) (h2 : p.tDeltaZ ≤ 2) :
    ∀ (n : ℕ) (s : DDAState), s.counter + n ≤ MAX_DISTANCE → s.tMaxX = f32MAX →
      s.tMaxZ ≤ 2 * ((s.counter : ℚ) + 1) →
      (ddaRun p s n).curX = s.curX := by
  intro n
  induction n with
  | zero =>
    intro s _ _ _
    simp only [ddaRun]
  | succ n ih =>
    intro s hcn hX hZ
    show (ddaRun p (ddaStep p s) n).curX = s.curX
    by_cases hg : s.found = false ∧ s.counter < MAX_DISTANCE
    · rw [ddaStep, if_pos hg]
      have hcQ : (s.counter : ℚ) ≤ 100 := by
        have h100 : s.counter ≤ 100 := by
          have := hg.2
          rw [MAX_DISTANCE] at this
          omega
        exact_mod_cast h100
      have hZbig : s.tMaxZ < f32MAX := by
        have hle : s.tMaxZ ≤ 202 := by linarith
        have hcmp : (202 : ℚ) < f32MAX := by norm_num [f32MAX]
        linarith
      have hnotxz : ¬ (s.tMaxX < s.tMaxZ) := by
        rw [hX]
        exact not_lt.mpr (le_of_lt hZbig)
      by_cases hxy : s.tMaxX < s.tMaxY
      · rw [ddaAdvance, if_pos hxy, if_neg hnotxz]
        refine (ih _ ?_ ?_ ?_).trans ?_
        · rw [ddaCheck_counter]
          show s.counter + 1 + n ≤ MAX_DISTANCE
          omega
        · rw [ddaCheck_tMaxX]
          exact hX
        · rw [ddaCheck_tMaxZ, ddaCheck_counter]
          show s.tMaxZ + p.tDeltaZ ≤ 2 * (((s.counter + 1 : ℕ) : ℚ) + 1)
          push_cast
          linarith
        · rw [ddaCheck_curX]
      · rw [ddaAdvance, if_neg hxy]
        by_cases hyz : s.tMaxY < s.tMaxZ
        · rw [if_pos hyz]
          refine (ih _ ?_ ?_ ?_).trans ?_
          · rw [ddaCheck_counter]
            show s.counter + 1 + n ≤ MAX_DISTANCE
            omega
          · rw [ddaCheck_tMaxX]
            exact hX
          · rw [ddaCheck_tMaxZ, ddaCheck_counter]
            show s.tMaxZ ≤ 2 * (((s.counter + 1 : ℕ) : ℚ) + 1)
            push_cast
            linarith
          · rw [ddaCheck_curX]
        · rw [if_neg hyz]
          refine (ih _ ?_ ?_ ?_).trans ?_
          · rw [ddaCheck_counter]
            show s.counter + 1 + n ≤ MAX_DISTANCE
            omega
          · rw [ddaCheck_tMaxX]
            exact hX
          · rw [ddaCheck_tMaxZ, ddaCheck_counter]
            show s.tMaxZ + p.tDeltaZ ≤ 2 * (((s.counter + 1 : ℕ) : ℚ) + 1)
            push_cast
            linarith
          · rw [ddaCheck_curX]
    · rw [ddaStep, if_neg hg]
      exact ih s (by omega) hX hZ

theorem keepY_viaX (p : DDAParams) (h2 : p.tDeltaX ≤ 2) :
    ∀ (n : ℕ) (s : DDAState), s.counter + n ≤ MAX_DISTANCE → s.tMaxY = f32MAX →
      s.tMaxX ≤ 2 * ((s.counter : ℚ) + 1) →
      (ddaRun p s n).curY = s.curY := by
  intro n
  induction n with
  | zero =>
    intro s _ _ _
    simp only [ddaRun]
  | succ n ih =>
    intro s hcn hY hXb
    show (ddaRun p (ddaStep p s) n).curY = s.curY
    by_cases hg : s.found = false ∧ s.counter < MAX_DISTANCE
    · rw [ddaStep, if_pos hg]
      have hcQ : (s.counter : ℚ) ≤ 100 := by
        have h100 : s.counter ≤ 100 := by
          have := hg.2
          rw [MAX_DISTANCE] at this
          omega
        exact_mod_cast h100
      have hXbig : s.tMaxX < f32MAX := by
        have hle : s.tMaxX ≤ 202 := by linarith
        have hcmp : (202 : ℚ) < f32MAX := by norm_num [f32MAX]
        linarith
      have hxy : s.tMaxX < s.tMaxY := by
        rw [hY]
        exact hXbig
      rw [ddaAdvance, if_pos hxy]
      by_cases hxz : s.tMaxX < s.tMaxZ
      · rw [if_pos hxz]
        refine (ih _ ?_ ?_ ?_).trans ?_
        · rw [ddaCheck_counter]
          show s.counter + 1 + n ≤ MAX_DISTANCE
          omega
        · rw [ddaCheck_tMaxY]
          exact hY
        · rw [ddaCheck_tMaxX, ddaCheck_counter]
          show s.tMaxX + p.tDeltaX ≤ 2 * (((s.counter + 1 : ℕ) : ℚ) + 1)
          push_cast
          linarith
        · rw [ddaCheck_curY]
      · rw [if_neg hxz]
        refine (ih _ ?_ ?_ ?_).trans ?_
        · rw [ddaCheck_counter]
          show s.counter + 1 + n ≤ MAX_DISTANCE
          omega
        · rw [ddaCheck_tMaxY]
          exact hY
        · rw [ddaCheck_tMaxX, ddaCheck_counter]
          show s.tMaxX ≤ 2 * (((s.counter + 1 : ℕ) : ℚ) + 1)
          push_cast
          linarith
        · rw [ddaCheck_curY]
    · rw [ddaStep, if_neg hg]
      exact ih s (by omega) hY hXb

theorem keepY_viaZ (p : DDAParams) (h2 : p.tDeltaZ ≤ 2) :
    ∀ (n : ℕ) (s : DDAState), s.counter + n ≤ MAX_DISTANCE → s.tMaxY = f32MAX →
      s.tMaxZ ≤ 2 * ((s.counter : ℚ) + 1) →
      (ddaRun p s n).curY = s.curY := by
  intro n
  induction n with
  | zero =>
    intro s _ _ _
    simp only [ddaRun]
  | succ n ih =>
    intro s hcn hY hZb
    show (ddaRun p (ddaStep p s) n).curY = s.curY
    by_cases hg : s.found = false ∧ s.counter < MAX_DISTANCE
    · rw [ddaStep, if_pos hg]
      have hcQ : (s.counter : ℚ) ≤ 100 := by
        have h100 : s.counter ≤ 100 := by
          have := hg.2
          rw [MAX_DISTANCE] at this
          omega
        exact_mod_cast h100
      have hZbig : s.tMaxZ < f32MAX := by
        have hle : s.tMaxZ ≤ 202 := by linarith
        have hcmp : (202 : ℚ) < f32MAX := by norm_num [f32MAX]
        linarith
      by_cases hxy : s.tMaxX < s.tMaxY
      · rw [ddaAdvance, if_pos hxy]
        by_cases hxz : s.tMaxX < s.tMaxZ
        · rw [if_pos hxz]
          refine (ih _ ?_ ?_ ?_).trans ?_
          · rw [ddaCheck_counter]
            show s.counter + 1 + n ≤ MAX_DISTANCE
            omega
          · rw [ddaCheck_tMaxY]
            exact hY
          · rw [ddaCheck_tMaxZ, ddaCheck_counter]
            show s.tMaxZ ≤ 2 * (((s.counter + 1 : ℕ) : ℚ) + 1)
            push_cast
            linarith
          · rw [ddaCheck_curY]
        · rw [if_neg hxz]
          refine (ih _ ?_ ?_ ?_).trans ?_
          · rw [ddaCheck_counter]
            show s.counter + 1 + n ≤ MAX_DISTANCE
            omega
          · rw [ddaCheck_tMaxY]
            exact hY
          · rw [ddaCheck_tMaxZ, ddaCheck_counter]
            show s.tMaxZ + p.tDeltaZ ≤ 2 * (((s.counter + 1 : ℕ) : ℚ) + 1)
            push_cast
            linarith
          · rw [ddaCheck_curY]
      · have hnotyz : ¬ (s.tMaxY < s.tMaxZ) := by
          rw [hY]
          exact not_lt.mpr (le_of_lt hZbig)
        rw [ddaAdvance, if_neg hxy, if_neg hnotyz]
        refine (ih _ ?_ ?_ ?_).trans ?_
        · rw [ddaCheck_counter]
          show s.counter + 1 + n ≤ MAX_DISTANCE
          omega
        · rw [ddaCheck_tMaxY]
          exact hY
        · rw [ddaCheck_tMaxZ, ddaCheck_counter]
          show s.tMaxZ + p.tDeltaZ ≤ 2 * (((s.counter + 1 : ℕ) : ℚ) + 1)
          push_cast
          linarith
        · rw [ddaCheck_curY]
    · rw [ddaStep, if_neg hg]
      exact ih s (by omega) hY hZb

theorem keepZ_viaX (p : DDAParams) (h2 : p.tDeltaX ≤ 2) :
    ∀ (n : ℕ) (s : DDAState), s.counter + n ≤ MAX_DISTANCE → s.tMaxZ = f32MAX →
      s.tMaxX ≤ 2 * ((s.counter : ℚ) + 1) →
      (ddaRun p s n).curZ = s.curZ := by
  intro n
  induction n with
  | zero =>
    intro s _ _ _
    simp only [ddaRun]
  | succ n ih =>
    intro s hcn hZ hXb
    show (ddaRun p (ddaStep p s) n).curZ = s.curZ
    by_cases hg : s.found = false ∧ s.counter < MAX_DISTANCE
    · rw [ddaStep, if_pos hg]
      have hcQ : (s.counter : ℚ) ≤ 100 := by
        have h100 : s.counter ≤ 100 := by
          have := hg.2
          rw [MAX_DISTANCE] at this
          omega
        exact_mod_cast h100
      have hXbig : s.tMaxX < f32MAX := by
        have hle : s.tMaxX ≤ 202 := by linarith
        have hcmp : (202 : ℚ) < f32MAX := by norm_num [f32MAX]
        linarith
      by_cases hxy : s.tMaxX < s.tMaxY
      · have hxz : s.tMaxX < s.tMaxZ := by
          rw [hZ]
          exact hXbig
        rw [ddaAdvance, if_pos hxy, if_pos hxz]
        refine (ih _ ?_ ?_ ?_).trans ?_
        · rw [ddaCheck_counter]
          show s.counter + 1 + n ≤ MAX_DISTANCE
          omega
        · rw [ddaCheck_tMaxZ]
          exact hZ
        · rw [ddaCheck_tMaxX, ddaCheck_counter]
          show s.tMaxX + p.tDeltaX ≤ 2 * (((s.counter + 1 : ℕ) : ℚ) + 1)
          push_cast
          linarith
        · rw [ddaCheck_curZ]
      · have hyx : s.tMaxY ≤ s.tMaxX := not_lt.mp hxy
        have hyz : s.tMaxY < s.tMaxZ := by
          rw [hZ]
          linarith
        rw [ddaAdvance, if_neg hxy, if_pos hyz]
        refine (ih _ ?_ ?_ ?_).trans ?_
        · rw [ddaCheck_counter]
          show s.counter + 1 + n ≤ MAX_DISTANCE
          omega
        · rw [ddaCheck_tMaxZ]
          exact hZ
        · rw [ddaCheck_tMaxX, ddaCheck_counter]
          show s.tMaxX ≤ 2 * (((s.counter + 1 : ℕ) : ℚ) + 1)
          push_cast
          linarith
        · rw [ddaCheck_curZ]
    · rw [ddaStep, if_neg hg]
      exact ih s (by omega) hZ hXb

theorem keepZ_viaY (p : DDAParams) (h2 : p.tDeltaY ≤ 2) :
    ∀ (n : ℕ) (s : DDAState), s.counter + n ≤ MAX_DISTANCE → s.tMaxZ = f32MAX →
      s.tMaxY ≤ 2 * ((s.counter : ℚ) + 1) →
      (ddaRun p s n).curZ = s.curZ := by
  intro n
  induction n with
  | zero =>
    intro s _ _ _
    simp only [ddaRun]
  | succ n ih =>
    intro s hcn hZ hYb
    show (ddaRun p (ddaStep p s) n).curZ = s.curZ
    by_cases hg : s.found = false ∧ s.counter < MAX_DISTANCE
    · rw [ddaStep, if_pos hg]
      have hcQ : (s.counter : ℚ) ≤ 100 := by
        have h100 : s.counter ≤ 100 := by
          have := hg.2
          rw [MAX_DISTANCE] at this
          omega
        exact_mod_cast h100
      have hYbig : s.tMaxY < f32MAX := by
        have hle : s.tMaxY ≤ 202 := by linarith
        have hcmp : (202 : ℚ) < f32MAX := by norm_num [f32MAX]
        linarith
      by_cases hxy : s.tMaxX < s.tMaxY
      · have hxz : s.tMaxX < s.tMaxZ := by
          rw [hZ]
          exact lt_trans hxy hYbig
        rw [ddaAdvance, if_pos hxy, if_pos hxz]
        refine (ih _ ?_ ?_ ?_).trans ?_
        · rw [ddaCheck_counter]
          show s.counter + 1 + n ≤ MAX_DISTANCE
          omega
        · rw [ddaCheck_tMaxZ]
          exact hZ
        · rw [ddaCheck_tMaxY, ddaCheck_counter]
          show s.tMaxY ≤ 2 * (((s.counter + 1 : ℕ) : ℚ) + 1)
          push_cast
          linarith
        · rw [ddaCheck_curZ]
      · have hyz : s.tMaxY < s.tMaxZ := by
          rw [hZ]
          exact hYbig
        rw [ddaAdvance, if_neg hxy, if_pos hyz]
        refine (ih _ ?_ ?_ ?_).trans ?_
        · rw [ddaCheck_counter]
          show s.counter + 1 + n ≤ MAX_DISTANCE
          omega
        · rw [ddaCheck_tMaxZ]
          exact hZ
        · rw [ddaCheck_tMaxY, ddaCheck_counter]
          show s.tMaxY + p.tDeltaY ≤ 2 * (((s.counter + 1 : ℕ) : ℚ) + 1)
          push_cast
          linarith
        · rw [ddaCheck_curZ]
    · rw [ddaStep, if_neg hg]
      exact ih s (by omega) hZ hYb

theorem tDeltaOf_zero (step : ℤ) : tDeltaOf step 0 = f32MAX := by
  rw [tDeltaOf, if_neg (by simp)]

theorem tMaxInit_zero (cur rs step : ℤ) : tMaxInit cur rs step 0 = f32MAX := by
  rw [tMaxInit, if_neg (by simp)]

theorem tMaxInit_eq_tDeltaOf (cur step : ℤ) (d : ℚ) :
    tMaxInit cur cur step d = tDeltaOf step d := by
  rw [tMaxInit, tDeltaOf]
  by_cases hd : d ≠ 0
  · rw [if_pos hd, if_pos hd]
    push_cast
    ring
  · rw [if_neg hd, if_neg hd]

theorem initState_tMaxX_eq (camX camY camZ dx dy dz : ℚ) :
    (initState camX camY camZ dx dy dz).tMaxX = tDeltaOf (stepOf dx) dx := by
  show tMaxInit (current_block_init camX camY camZ).1 (current_block_init camX camY camZ).1
      (stepOf dx) dx = tDeltaOf (stepOf dx) dx
  exact tMaxInit_eq_tDeltaOf _ _ dx

theorem initState_tMaxY_eq (camX camY camZ dx dy dz : ℚ) :
    (initState camX camY camZ dx dy dz).tMaxY = tDeltaOf (stepOf dy) dy := by
  show tMaxInit (current_block_init camX camY camZ).2.1 (current_block_init camX camY camZ).2.1
      (stepOf dy) dy = tDeltaOf (stepOf dy) dy
  exact tMaxInit_eq_tDeltaOf _ _ dy

theorem initState_tMaxZ_eq (camX camY camZ dx dy dz : ℚ) :
    (initState camX camY camZ dx dy dz).tMaxZ = tDeltaOf (stepOf dz) dz := by
  show tMaxInit (current_block_init camX camY camZ).2.2 (current_block_init camX camY camZ).2.2
      (stepOf dz) dz = tDeltaOf (stepOf dz) dz
  exact tMaxInit_eq_tDeltaOf _ _ dz

theorem tDeltaOf_bounds (d : ℚ) (hd : d ≠ 0) (hsq : 1 / 2 ≤ d ^ 2) :
    0 ≤ tDeltaOf (stepOf d) d ∧ tDeltaOf (stepOf d) d ≤ 2 := by
  rw [tDeltaOf, if_pos hd, stepOf]
  rcases lt_or_gt_of_ne hd with hneg | hpos
  · rw [if_neg (not_le.mpr hneg)]
    push_cast
    have hd2 : d ≤ -(1 / 2) := by nlinarith
    have h1 : 1 / d < 0 := one_div_neg.mpr hneg
    have key : (1 / d * (-1)) * d = -1 := by field_simp
    constructor
    · nlinarith
    · nlinarith [key, hd2, h1]
  · rw [if_pos (le_of_lt hpos)]
    push_cast
    have hd2 : (1 : ℚ) / 2 ≤ d := by nlinarith
    constructor
    · positivity
    · rw [mul_one, div_le_iff₀ hpos]
      linarith

theorem sq_ne_zero_of_half_le (d : ℚ) (h : 1 / 2 ≤ d ^ 2) : d ≠ 0 := by
  intro h0
  rw [h0] at h
  norm_num at h

theorem half_le_sq_or (a b : ℚ) (h : a ^ 2 + b ^ 2 = 1) :
    1 / 2 ≤ a ^ 2 ∨ 1 / 2 ≤ b ^ 2 := by
  by_contra hcon
  push_neg at hcon
  linarith [hcon.1, hcon.2]

/-- C5: for a normalized ray direction with a zero component, that axis's
initial `t_max` and `t_delta` are the `f32::MAX` infinity sentinel, and at
every iteration of the traversal loop the current voxel's coordinate along
that axis still equals the starting voxel's coordinate along that axis - the
axis is never selected as the stepping axis. -/
theorem zero_direction_axis_never_stepped
    (lookup : Coord3 → Option BlockType) (camX camY camZ dx dy dz : ℚ)
    (hunit : dx ^ 2 + dy ^ 2 + dz ^ 2 = 1) :
    (dx = 0 →
      (initState camX camY camZ dx dy dz).tMaxX = f32MAX
      ∧ (mkParams lookup dx dy dz).tDeltaX = f32MAX
      ∧ ∀ n : ℕ, n ≤ MAX_DISTANCE →
          (ddaRun (mkParams lookup dx dy dz) (initState camX camY camZ dx dy dz) n).curX
            = (initState camX camY camZ dx dy dz).curX)
    ∧ (dy = 0 →
      (initState camX camY camZ dx dy dz).tMaxY = f32MAX
      ∧ (mkParams lookup dx dy dz).tDeltaY = f32MAX
      ∧ ∀ n : ℕ, n ≤ MAX_DISTANCE →
          (ddaRun (mkParams lookup dx dy dz) (initState camX camY camZ dx dy dz) n).curY
            = (initState camX camY camZ dx dy dz).curY)
    ∧ (dz = 0 →
      (initState camX camY camZ dx dy dz).tMaxZ = f32MAX
      ∧ (mkParams lookup dx dy dz).tDeltaZ = f32MAX
      ∧ ∀ n : ℕ, n ≤ MAX_DISTANCE →
          (ddaRun (mkParams lookup dx dy dz) (initState camX camY camZ dx dy dz) n).curZ
            = (initState camX camY camZ dx dy dz).curZ) := by
  refine ⟨?_, ?_, ?_⟩
  · intro hdx
    have hXinit : (initState camX camY camZ dx dy dz).tMaxX = f32MAX := by
      rw [initState_tMaxX_eq, hdx, tDeltaOf_zero]
    have hXdelta : (mkParams lookup dx dy dz).tDeltaX = f32MAX := by
      show tDeltaOf (stepOf dx) dx = f32MAX
      rw [hdx, tDeltaOf_zero]
    refine ⟨hXinit, hXdelta, ?_⟩
    intro n hn
    have hrest : dy ^ 2 + dz ^ 2 = 1 := by
      rw [hdx] at hunit
      linarith [hunit]
    rcases half_le_sq_or dy dz hrest with hb | hb
    · have hdy := sq_ne_zero_of_half_le dy hb
      have hbd := tDeltaOf_bounds dy hdy hb
      refine keepX_viaY (mkParams lookup dx dy dz) hbd.2 n _ ?_ hXinit ?_
      · show 0 + n ≤ MAX_DISTANCE
        omega
      · rw [initState_tMaxY_eq]
        show tDeltaOf (stepOf dy) dy ≤ 2 * (((0 : ℕ) : ℚ) + 1)
        push_cast
        linarith [hbd.2]
    · have hdz := sq_ne_zero_of_half_le dz hb
      have hbd := tDeltaOf_bounds dz hdz hb
      refine keepX_viaZ (mkParams lookup dx dy dz) hbd.2 n _ ?_ hXinit ?_
      · show 0 + n ≤ MAX_DISTANCE
        omega
      · rw [initState_tMaxZ_eq]
        show tDeltaOf (stepOf dz) dz ≤ 2 * (((0 : ℕ) : ℚ) + 1)
        push_cast
        linarith [hbd.2]
  · intro hdy
    have hYinit : (initState camX camY camZ dx dy dz).tMaxY = f32MAX := by
      rw [initState_tMaxY_eq, hdy, tDeltaOf_zero]
    have hYdelta : (mkParams lookup dx dy dz).tDeltaY = f32MAX := by
      show tDeltaOf (stepOf dy) dy = f32MAX
      rw [hdy, tDeltaOf_zero]
    refine ⟨hYinit, hYdelta, ?_⟩
    intro n hn
    have hrest : dx ^ 2 + dz ^ 2 = 1 := by
      rw [hdy] at hunit
      linarith [hunit]
    rcases half_le_sq_or dx dz hrest with hb | hb
    · have hdx := sq_ne_zero_of_half_le dx hb
      have hbd := tDeltaOf_bounds dx hdx hb
      refine keepY_viaX (mkParams lookup dx dy dz) hbd.2 n _ ?_ hYinit ?_
      · show 0 + n ≤ MAX_DISTANCE
        omega
      · rw [initState_tMaxX_eq]
        show tDeltaOf (stepOf dx) dx ≤ 2 * (((0 : ℕ) : ℚ) + 1)
        push_cast
        linarith [hbd.2]
    · have hdz := sq_ne_zero_of_half_le dz hb
      have hbd := tDeltaOf_bounds dz hdz hb
      refine keepY_viaZ (mkParams lookup dx dy dz) hbd.2 n _ ?_ hYinit ?_
      · show 0 + n ≤ MAX_DISTANCE
        omega
      · rw [initState_tMaxZ_eq]
        show tDeltaOf (stepOf dz) dz ≤ 2 * (((0 : ℕ) : ℚ) + 1)
        push_cast
        linarith [hbd.2]
  · intro hdz
    have hZinit : (initState camX camY camZ dx dy dz).tMaxZ = f32MAX := by
      rw [initState_tMaxZ_eq, hdz, tDeltaOf_zero]
    have hZdelta : (mkParams lookup dx dy dz).tDeltaZ = f32MAX := by
      show tDeltaOf (stepOf dz) dz = f32MAX
      rw [hdz, tDeltaOf_zero]
    refine ⟨hZinit, hZdelta, ?_⟩
    intro n hn
    have hrest : dx ^ 2 + dy ^ 2 = 1 := by
      rw [hdz] at hunit
      linarith [hunit]
    rcases half_le_sq_or dx dy hrest with hb | hb
    · have hdx := sq_ne_zero_of_half_le dx hb
      have hbd := tDeltaOf_bounds dx hdx hb
      refine keepZ_viaX (mkParams lookup dx dy dz) hbd.2 n _ ?_ hZinit ?_
      · show 0 + n ≤ MAX_DISTANCE
        omega
      · rw [initState_tMaxX_eq]
        show tDeltaOf (stepOf dx) dx ≤ 2 * (((0 : ℕ) : ℚ) + 1)
        push_cast
        linarith [hbd.2]
    · have hdy := sq_ne_zero_of_half_le dy hb
      have hbd := tDeltaOf_bounds dy hdy hb
      refine keepZ_viaY (mkParams lookup dx dy dz) hbd.2 n _ ?_ hZinit ?_
      · show 0 + n ≤ MAX_DISTANCE
        omega
      · rw [initState_tMaxY_eq]
        show tDeltaOf (stepOf dy) dy ≤ 2 * (((0 : ℕ) : ℚ) + 1)
        push_cast
        linarith [hbd.2]

/-- Witness for C5: direction `(0, 3/5, 4/5)` is a unit vector with a zero x
component; after the full step budget the current voxel's x coordinate still
equals the starting voxel's x coordinate. -/
theorem zero_direction_axis_never_stepped_witness :
    (0 : ℚ) ^ 2 + (3 / 5 : ℚ) ^ 2 + (4 / 5 : ℚ) ^ 2 = 1
    ∧ (ddaRun (mkParams (fun _ => none) 0 (3 / 5) (4 / 5))
          (initState 0 0 0 0 (3 / 5) (4 / 5)) MAX_DISTANCE).curX
        = (initState 0 0 0 0 (3 / 5) (4 / 5)).curX :=
  ⟨by norm_num,
    ((zero_direction_axis_never_stepped (fun _ => none) 0 0 0 0 (3 / 5) (4 / 5)
      (by norm_num)).1 rfl).2.2 MAX_DISTANCE (le_refl MAX_DISTANCE)⟩

end Kuberirust
